import Mathlib

/-
Verification of the Firmata hardware-abstraction layer in Boards.h
(Adafruit_BLE_PinIO).  The file shallowly embeds the board profiles,
the capability predicates and index translators, and the two port
primitives readPort / writePort, and proves the spec claims about them.

Machine integers (the C type byte = uint8_t) are modelled as Nat with
explicit truncation (&&& 0xFF) where the C code stores into a byte.
Pin state is a function from native pin number to Bool (HIGH = true).
-/

namespace BLEPinIO

/-- The three board profiles selected by the preprocessor in Boards.h:
the ATmega168/328P ("Arduino Duemilanove, Diecimila, and NG") profile in
its two variants (NUM_ANALOG_INPUTS == 6, giving TOTAL_PINS 16, or the
default 8-analog variant giving TOTAL_PINS 22), and the Arduino Mega
(ATmega1280/2560) profile. -/
inductive Board
  | duemilanove6
  | duemilanove8
  | mega
deriving DecidableEq

/-- TOTAL_ANALOG_PINS for each profile (Boards.h lines 134, 137, 157). -/
def TOTAL_ANALOG_PINS : Board → Nat
  | .duemilanove6 => 6
  | .duemilanove8 => 8
  | .mega => 16

/-- TOTAL_PINS for each profile (Boards.h lines 135, 138, 158). -/
def TOTAL_PINS : Board → Nat
  | .duemilanove6 => 16
  | .duemilanove8 => 22
  | .mega => 70

/-- IS_PIN_DIGITAL.  On the ATmega168/328P profile (line 143):
(((p) >= 3 && (p) <= 8) || ((p) >= 14 && (p) <= 19)) — pins 2 and
9..13 are excluded because they carry the BTLE link (comment, line 142).
On the Mega (line 160): ((p) >= 2 && (p) < TOTAL_PINS). -/
def IS_PIN_DIGITAL (b : Board) (p : Nat) : Bool :=
  match b with
  | .duemilanove6 | .duemilanove8 =>
      (decide (3 ≤ p) && decide (p ≤ 8)) || (decide (14 ≤ p) && decide (p ≤ 19))
  | .mega => decide (2 ≤ p) && decide (p < TOTAL_PINS .mega)

/-- IS_PIN_ANALOG.  ATmega168/328P (line 144):
((p) >= 14 && (p) < 14 + TOTAL_ANALOG_PINS).
Mega (line 161): ((p) >= 54 && (p) < TOTAL_PINS). -/
def IS_PIN_ANALOG (b : Board) (p : Nat) : Bool :=
  match b with
  | .duemilanove6 | .duemilanove8 =>
      decide (14 ≤ p) && decide (p < 14 + TOTAL_ANALOG_PINS b)
  | .mega => decide (54 ≤ p) && decide (p < TOTAL_PINS .mega)

/-- IS_PIN_SERVO, parameterised by the externally supplied MAX_SERVOS
(default 0, line 19).  ATmega168/328P (line 146):
(IS_PIN_DIGITAL(p) && (p) - 2 < MAX_SERVOS).
Mega (line 163): ((p) >= 2 && (p) - 2 < MAX_SERVOS).
In both branches the guard preceding (p) - 2 forces p ≥ 2, so Nat
truncated subtraction agrees with the C arithmetic when the guard holds. -/
def IS_PIN_SERVO (b : Board) (maxServos p : Nat) : Bool :=
  match b with
  | .duemilanove6 | .duemilanove8 => IS_PIN_DIGITAL b p && decide (p - 2 < maxServos)
  | .mega => decide (2 ≤ p) && decide (p - 2 < maxServos)

/-- PIN_TO_DIGITAL(p) = (p) on both profiles (lines 148, 165). -/
def PIN_TO_DIGITAL (p : Nat) : Nat := p

/-- PIN_TO_ANALOG: ((p) - 14) on ATmega168/328P (line 149),
((p) - 54) on Mega (line 166). -/
def PIN_TO_ANALOG (b : Board) (p : Nat) : Nat :=
  match b with
  | .duemilanove6 | .duemilanove8 => p - 14
  | .mega => p - 54

/-- PIN_TO_SERVO(p) = ((p) - 2) on both profiles (lines 151, 168). -/
def PIN_TO_SERVO (p : Nat) : Nat := p - 2

/-- The smallest analog-capable pin index of each profile (14 on the
ATmega168/328P profiles, 54 on the Mega); characterised against
IS_PIN_ANALOG in the theorem pinToAnalog_spec. -/
def firstAnalogPin : Board → Nat
  | .duemilanove6 | .duemilanove8 => 14
  | .mega => 54

/-- Number of pin indices in [0, TOTAL_PINS) satisfying IS_PIN_ANALOG. -/
def analogPinCount (b : Board) : Nat :=
  ((List.range (TOTAL_PINS b)).filter (fun p => IS_PIN_ANALOG b p)).length

/-- Pin p can be servo-capable for some setting of MAX_SERVOS. -/
def servoCapableSomeMax (b : Board) (p : Nat) : Prop :=
  ∃ maxServos, IS_PIN_SERVO b maxServos p = true

/-- Native pin state: HIGH (true) or LOW (false) per native pin number. -/
def State := Nat → Bool

/-- Arduino digitalRead against the pin-state model. -/
def digitalRead (s : State) (p : Nat) : Bool := s p

/-- Arduino digitalWrite against the pin-state model; the C call sites
pass a nonzero int for HIGH, modelled as a Bool. -/
def digitalWrite (s : State) (p : Nat) (v : Bool) : State :=
  fun q => if q = p then v else s q

/-- readPort (Boards.h lines 182..195), translated line by line.  The C
test (bitmask & 0x01) is nonzero exactly when bit 0 of bitmask is set,
i.e. bitmask.testBit 0, and so on for the other seven lines.  Each line
relies on short-circuit &&, so digitalRead only happens after the two
guards hold (that effect order is modelled separately by readPortReads). -/
def readPort (b : Board) (s : State) (port bitmask : Nat) : Nat :=
  let pin := port * 8
  let out : Nat := 0
  let out := if IS_PIN_DIGITAL b (pin+0) && bitmask.testBit 0 && digitalRead s (PIN_TO_DIGITAL (pin+0)) then out ||| 0x01 else out
  let out := if IS_PIN_DIGITAL b (pin+1) && bitmask.testBit 1 && digitalRead s (PIN_TO_DIGITAL (pin+1)) then out ||| 0x02 else out
  let out := if IS_PIN_DIGITAL b (pin+2) && bitmask.testBit 2 && digitalRead s (PIN_TO_DIGITAL (pin+2)) then out ||| 0x04 else out
  let out := if IS_PIN_DIGITAL b (pin+3) && bitmask.testBit 3 && digitalRead s (PIN_TO_DIGITAL (pin+3)) then out ||| 0x08 else out
  let out := if IS_PIN_DIGITAL b (pin+4) && bitmask.testBit 4 && digitalRead s (PIN_TO_DIGITAL (pin+4)) then out ||| 0x10 else out
  let out := if IS_PIN_DIGITAL b (pin+5) && bitmask.testBit 5 && digitalRead s (PIN_TO_DIGITAL (pin+5)) then out ||| 0x20 else out
  let out := if IS_PIN_DIGITAL b (pin+6) && bitmask.testBit 6 && digitalRead s (PIN_TO_DIGITAL (pin+6)) then out ||| 0x40 else out
  let out := if IS_PIN_DIGITAL b (pin+7) && bitmask.testBit 7 && digitalRead s (PIN_TO_DIGITAL (pin+7)) then out ||| 0x80 else out
  out

/-- The native pins readPort passes to digitalRead, in evaluation order:
by short-circuiting, line i reaches digitalRead exactly when
IS_PIN_DIGITAL(pin+i) and bit i of bitmask both hold. -/
def readPortReads (b : Board) (port bitmask : Nat) : List Nat :=
  let pin := port * 8
  (if IS_PIN_DIGITAL b (pin+0) && bitmask.testBit 0 then [PIN_TO_DIGITAL (pin+0)] else []) ++
  (if IS_PIN_DIGITAL b (pin+1) && bitmask.testBit 1 then [PIN_TO_DIGITAL (pin+1)] else []) ++
  (if IS_PIN_DIGITAL b (pin+2) && bitmask.testBit 2 then [PIN_TO_DIGITAL (pin+2)] else []) ++
  (if IS_PIN_DIGITAL b (pin+3) && bitmask.testBit 3 then [PIN_TO_DIGITAL (pin+3)] else []) ++
  (if IS_PIN_DIGITAL b (pin+4) && bitmask.testBit 4 then [PIN_TO_DIGITAL (pin+4)] else []) ++
  (if IS_PIN_DIGITAL b (pin+5) && bitmask.testBit 5 then [PIN_TO_DIGITAL (pin+5)] else []) ++
  (if IS_PIN_DIGITAL b (pin+6) && bitmask.testBit 6 then [PIN_TO_DIGITAL (pin+6)] else []) ++
  (if IS_PIN_DIGITAL b (pin+7) && bitmask.testBit 7 then [PIN_TO_DIGITAL (pin+7)] else [])

/-- Byte built from bits f 0 .. f (w-1) (bit j of the result is f j). -/
def bitsOf (f : Nat → Bool) : Nat → Nat
  | 0 => 0
  | w + 1 => bitsOf f w ||| (if f w then 2 ^ w else 0)

/- ATmega168/328P pin-to-register mapping assumed by the optimized branch
of writePort (the standard Arduino pinout for this chip): PORTD bits 0..7
are native pins 0..7, PORTB bits 0..5 are native pins 8..13, and PORTC
bits 0..5 are native pins 14..19 (A0..A5).  The remaining register bits
drive no Arduino pin. -/

/-- The PORTD output register as a function of pin state. -/
def PORTDreg (s : State) : Nat := bitsOf (fun j => s j) 8

/-- The PORTB output register (bits 0..5 = pins 8..13). -/
def PORTBreg (s : State) : Nat := bitsOf (fun j => s (8 + j)) 6

/-- The PORTC output register (bits 0..5 = pins 14..19). -/
def PORTCreg (s : State) : Nat := bitsOf (fun j => s (14 + j)) 6

/-- Assigning the byte x to PORTD: pins 0..7 take bits 0..7 of x. -/
def setPORTD (s : State) (x : Nat) : State :=
  fun q => if q < 8 then x.testBit q else s q

/-- Assigning the byte x to PORTB: pins 8..13 take bits 0..5 of x
(bits 6 and 7 drive no pin). -/
def setPORTB (s : State) (x : Nat) : State :=
  fun q => if 8 ≤ q ∧ q < 14 then x.testBit (q - 8) else s q

/-- Assigning the byte x to PORTC: pins 14..19 take bits 0..5 of x. -/
def setPORTC (s : State) (x : Nat) : State :=
  fun q => if 14 ≤ q ∧ q < 20 then x.testBit (q - 14) else s q

/-- C bitwise complement of a byte expression stored back into a byte
(the code stores results of the ~ operator into byte locals). -/
def bnot8 (x : Nat) : Nat := x ^^^ 0xFF

/-- The ARDUINO_PINOUT_OPTIMIZE branch of writePort (Boards.h lines
204..228), translated statement by statement.  value and bitmask are
byte parameters, modelled by the &&& 0xFF truncation on entry.  The
cli()/sei() interrupt bracketing has no effect in this single-threaded
model and is not represented. -/
def writePortFast (s : State) (port value bitmask : Nat) : State :=
  let value := value &&& 0xFF
  let bitmask := bitmask &&& 0xFF
  if port = 0 then
    let bitmask := bitmask &&& 0xFC
    let valD := value &&& bitmask
    let maskD := bnot8 bitmask
    setPORTD s ((PORTDreg s &&& maskD) ||| valD)
  else if port = 1 then
    let valB := (value &&& bitmask) &&& 0x3F
    let valC := (value &&& bitmask) >>> 6
    let maskB := bnot8 (bitmask &&& 0x3F)
    let maskC := bnot8 ((bitmask &&& 0xC0) >>> 6)
    let s1 := setPORTB s ((PORTBreg s &&& maskB) ||| valB)
    setPORTC s1 ((PORTCreg s1 &&& maskC) ||| valC)
  else if port = 2 then
    let bitmask := bitmask &&& 0x0F
    let valC := (value &&& bitmask) <<< 2
    let maskC := bnot8 (bitmask <<< 2)
    setPORTC s ((PORTCreg s &&& maskC) ||| valC)
  else s

/-- The first n iterations of the bit-by-bit loop of writePort (Boards.h
lines 230..237): iteration i writes bit i of value to pin port*8+i when
bit i of bitmask is set and the pin is digital.  The C call
digitalWrite(pin, value & (1 << i)) drives the pin HIGH exactly when the
int argument is nonzero, i.e. when value.testBit i. -/
def writeLoop (b : Board) (s : State) (port value bitmask : Nat) : Nat → State
  | 0 => s
  | i + 1 =>
      let s' := writeLoop b s port value bitmask i
      if bitmask.testBit i then
        if IS_PIN_DIGITAL b (port * 8 + i) then
          digitalWrite s' (PIN_TO_DIGITAL (port * 8 + i)) (value.testBit i)
        else s'
      else s'

/-- The full bit-by-bit form of writePort (the #else branch): the loop
run for i = 0..7. -/
def writePortBitByBit (b : Board) (s : State) (port value bitmask : Nat) : State :=
  writeLoop b s port value bitmask 8

/-- writePort as compiled per board.  On the ATmega168/328P profiles the
preprocessor test #if defined(ARDUINO_PINOUT_OPTIMIZE) succeeds — the
macro is defined (to 0) on line 152, and defined() tests definedness,
not value — so the register fast path is compiled.  On the Mega the
macro is not defined and the bit-by-bit branch is compiled. -/
def writePort (b : Board) (s : State) (port value bitmask : Nat) : State :=
  match b with
  | .duemilanove6 | .duemilanove8 => writePortFast s port value bitmask
  | .mega => writePortBitByBit .mega s port value bitmask

/-- The byte whose bit i says whether pin port*8+i is digital-capable. -/
def digitalMask (b : Board) (port : Nat) : Nat :=
  bitsOf (fun i => IS_PIN_DIGITAL b (port * 8 + i)) 8

/-- The value returned by writePort, per execution path.  writePort is
declared unsigned char (line 202), but the fast-path if/else-if chain
and the bit-by-bit branch both fall off the end of the function without
any return statement anywhere, so no path produces a defined return
value — modelled as Option Nat, none on every path. -/
def writePortReturn (b : Board) (port value bitmask : Nat) : Option Nat :=
  match b with
  | .duemilanove6 | .duemilanove8 =>
      if port = 0 then none else if port = 1 then none else if port = 2 then none
      else none
  | .mega => none

/-- C4: on the 6-analog ATmega168/328P variant, only 2 pins of
[0, TOTAL_PINS) = [0, 16) satisfy IS_PIN_ANALOG (pins 14 and 15),
not TOTAL_ANALOG_PINS = 6, because TOTAL_PINS is 16 although the
code's own comment says 14 digital + 6 analog; on the other two
profiles the analog count matches TOTAL_ANALOG_PINS. -/
theorem analog_count_duemilanove6_mismatch :
    analogPinCount Board.duemilanove6 = 2 ∧
    TOTAL_ANALOG_PINS Board.duemilanove6 = 6 ∧
    analogPinCount Board.duemilanove8 = TOTAL_ANALOG_PINS Board.duemilanove8 ∧
    analogPinCount Board.mega = TOTAL_ANALOG_PINS Board.mega := by
  decide

/-- C5: for every board profile, every MAX_SERVOS and every pin in
[0, TOTAL_PINS), IS_PIN_SERVO implies IS_PIN_DIGITAL. -/
theorem servo_implies_digital (b : Board) (maxServos p : Nat)
    (hp : p < TOTAL_PINS b) (hs : IS_PIN_SERVO b maxServos p = true) :
    IS_PIN_DIGITAL b p = true := by
  cases b <;>
    simp only [IS_PIN_SERVO, IS_PIN_DIGITAL, TOTAL_PINS, Bool.and_eq_true,
      Bool.or_eq_true, decide_eq_true_eq] at hp hs ⊢ <;>
    omega

/-- Witness for servo_implies_digital at the Mega profile, pin 2,
MAX_SERVOS = 1. -/
theorem servo_implies_digital_witness :
    2 < TOTAL_PINS Board.mega ∧ IS_PIN_SERVO Board.mega 1 2 = true ∧
    IS_PIN_DIGITAL Board.mega 2 = true :=
  ⟨by decide, by decide, servo_implies_digital Board.mega 1 2 (by decide) (by decide)⟩

/-- C6 counterexample: on the 8-analog ATmega168/328P profile, pin 3 is
the smallest pin that can be servo-capable (pins 0..2 are servo-capable
for no MAX_SERVOS, since they are not digital), yet PIN_TO_SERVO 3 = 1,
not 3 - 3 = 0: the first servo-capable pin does not get slot 0. -/
theorem pinToServo_first_pin_not_slot_zero :
    servoCapableSomeMax Board.duemilanove8 3 ∧
    ¬ servoCapableSomeMax Board.duemilanove8 0 ∧
    ¬ servoCapableSomeMax Board.duemilanove8 1 ∧
    ¬ servoCapableSomeMax Board.duemilanove8 2 ∧
    PIN_TO_SERVO 3 = 1 := by
  refine ⟨⟨2, by decide⟩, ?_, ?_, ?_, by decide⟩ <;>
    · rintro ⟨m, hm⟩
      simp only [IS_PIN_SERVO, IS_PIN_DIGITAL, Bool.and_eq_true, Bool.or_eq_true,
        decide_eq_true_eq] at hm
      omega

/-- C6 amended: on every profile PIN_TO_SERVO pin = pin - 2, and every
servo-capable pin has pin ≥ 2 and a servo slot below MAX_SERVOS.  On the
Mega the smallest servo-capable pin (2) translates to slot 0; on the
ATmega168/328P profiles the smallest servo-capable pin (3) translates to
slot 1, so slot 0 is never used there. -/
theorem pinToServo_amended (b : Board) (maxServos p : Nat)
    (hs : IS_PIN_SERVO b maxServos p = true) :
    PIN_TO_SERVO p = p - 2 ∧ 2 ≤ p ∧ PIN_TO_SERVO p < maxServos ∧
    PIN_TO_SERVO 2 = 0 ∧ PIN_TO_SERVO 3 = 1 := by
  cases b <;>
    simp only [IS_PIN_SERVO, IS_PIN_DIGITAL, Bool.and_eq_true, Bool.or_eq_true,
      decide_eq_true_eq] at hs <;>
    exact ⟨rfl, by omega, by simp only [PIN_TO_SERVO]; omega, rfl, rfl⟩

/-- Witness for pinToServo_amended at the Mega profile, pin 6,
MAX_SERVOS = 5. -/
theorem pinToServo_amended_witness :
    IS_PIN_SERVO Board.mega 5 6 = true ∧
    (PIN_TO_SERVO 6 = 6 - 2 ∧ 2 ≤ 6 ∧ PIN_TO_SERVO 6 < 5 ∧
     PIN_TO_SERVO 2 = 0 ∧ PIN_TO_SERVO 3 = 1) :=
  ⟨by decide, pinToServo_amended Board.mega 5 6 (by decide)⟩

/-- C7: on every analog-capable pin, PIN_TO_ANALOG subtracts the
profile's first analog-capable pin index, the result is a channel
number below TOTAL_ANALOG_PINS, firstAnalogPin really is the least
analog-capable index, and PIN_TO_DIGITAL is the identity on every
digital-capable pin. -/
theorem pinToAnalog_spec (b : Board) (p : Nat)
    (ha : IS_PIN_ANALOG b p = true) :
    PIN_TO_ANALOG b p = p - firstAnalogPin b ∧
    PIN_TO_ANALOG b p < TOTAL_ANALOG_PINS b ∧
    IS_PIN_ANALOG b (firstAnalogPin b) = true ∧
    (∀ q, q < firstAnalogPin b → IS_PIN_ANALOG b q = false) ∧
    (∀ q, IS_PIN_DIGITAL b q = true → PIN_TO_DIGITAL q = q) := by
  cases b <;>
    simp only [IS_PIN_ANALOG, TOTAL_ANALOG_PINS, TOTAL_PINS, Bool.and_eq_true,
      decide_eq_true_eq] at ha <;>
    refine ⟨rfl, ?_, by decide, ?_, fun q _ => rfl⟩ <;>
    first
      | (simp only [PIN_TO_ANALOG, TOTAL_ANALOG_PINS]; omega)
      | (intro q hq
         simp only [IS_PIN_ANALOG, firstAnalogPin, TOTAL_ANALOG_PINS, TOTAL_PINS,
           Bool.and_eq_false_iff, decide_eq_false_iff_not] at hq ⊢
         omega)

/-- Witness for pinToAnalog_spec at the Mega profile, pin 60. -/
theorem pinToAnalog_spec_witness :
    IS_PIN_ANALOG Board.mega 60 = true ∧
    PIN_TO_ANALOG Board.mega 60 < TOTAL_ANALOG_PINS Board.mega :=
  ⟨by decide, (pinToAnalog_spec Board.mega 60 (by decide)).2.1⟩

lemma testBit_setIf (c : Bool) (m out i : Nat) :
    (if c then out ||| m else out).testBit i =
      (out.testBit i || (c && m.testBit i)) := by
  cases c <;> simp

/-- Bit-level characterisation of readPort, for all bit positions. -/
lemma readPort_testBit (b : Board) (s : State) (port bitmask i : Nat) :
    (readPort b s port bitmask).testBit i =
      (decide (i < 8) &&
        (IS_PIN_DIGITAL b (port * 8 + i) && bitmask.testBit i && s (port * 8 + i))) := by
  have t0 : ∀ j, (0x01 : Nat).testBit j = decide (0 = j) := fun j => by
    rw [show (0x01 : Nat) = 2 ^ 0 by norm_num, Nat.testBit_two_pow]
  have t1 : ∀ j, (0x02 : Nat).testBit j = decide (1 = j) := fun j => by
    rw [show (0x02 : Nat) = 2 ^ 1 by norm_num, Nat.testBit_two_pow]
  have t2 : ∀ j, (0x04 : Nat).testBit j = decide (2 = j) := fun j => by
    rw [show (0x04 : Nat) = 2 ^ 2 by norm_num, Nat.testBit_two_pow]
  have t3 : ∀ j, (0x08 : Nat).testBit j = decide (3 = j) := fun j => by
    rw [show (0x08 : Nat) = 2 ^ 3 by norm_num, Nat.testBit_two_pow]
  have t4 : ∀ j, (0x10 : Nat).testBit j = decide (4 = j) := fun j => by
    rw [show (0x10 : Nat) = 2 ^ 4 by norm_num, Nat.testBit_two_pow]
  have t5 : ∀ j, (0x20 : Nat).testBit j = decide (5 = j) := fun j => by
    rw [show (0x20 : Nat) = 2 ^ 5 by norm_num, Nat.testBit_two_pow]
  have t6 : ∀ j, (0x40 : Nat).testBit j = decide (6 = j) := fun j => by
    rw [show (0x40 : Nat) = 2 ^ 6 by norm_num, Nat.testBit_two_pow]
  have t7 : ∀ j, (0x80 : Nat).testBit j = decide (7 = j) := fun j => by
    rw [show (0x80 : Nat) = 2 ^ 7 by norm_num, Nat.testBit_two_pow]
  simp only [readPort, PIN_TO_DIGITAL, digitalRead, testBit_setIf, Nat.zero_testBit,
    Bool.false_or, t0, t1, t2, t3, t4, t5, t6, t7]
  by_cases h : i < 8
  · interval_cases i <;> simp
  · have hne : ∀ j, j < 8 → decide (j = i) = false := by
      intro j hj
      simp only [decide_eq_false_iff_not]
      omega
    simp [h, hne]

/-- C3: bit i (i < 8) of readPort's result is set exactly when bit i of
bitmask is set, pin port*8+i is digital-capable, and the digital read of
that pin's native index is high; otherwise the bit is 0. -/
theorem readPort_bit_spec (b : Board) (s : State) (port bitmask i : Nat)
    (hi : i < 8) :
    (readPort b s port bitmask).testBit i =
      (bitmask.testBit i && IS_PIN_DIGITAL b (port * 8 + i) &&
        digitalRead s (PIN_TO_DIGITAL (port * 8 + i))) := by
  have hd : decide (i < 8) = true := by simp [hi]
  rw [readPort_testBit, hd]
  simp only [Bool.true_and, digitalRead, PIN_TO_DIGITAL]
  cases bitmask.testBit i <;> cases IS_PIN_DIGITAL b (port * 8 + i) <;> simp

/-- Witness for readPort_bit_spec: Mega, port 2, pin 16 high, full mask,
bit 0. -/
theorem readPort_bit_spec_witness :
    (0 : Nat) < 8 ∧
    (readPort Board.mega (fun q => decide (q = 16)) 2 0xFF).testBit 0 =
      ((0xFF : Nat).testBit 0 && IS_PIN_DIGITAL Board.mega (2 * 8 + 0) &&
        digitalRead (fun q => decide (q = 16)) (PIN_TO_DIGITAL (2 * 8 + 0))) :=
  ⟨by decide, readPort_bit_spec Board.mega (fun q => decide (q = 16)) 2 0xFF 0 (by decide)⟩

/-- C10: readPort performs a digitalRead on pin port*8+i (i < 8) exactly
when that pin is digital-capable and bit i of bitmask is set; masked-out
or non-digital pins are never read. -/
theorem readPort_reads_iff (b : Board) (port bitmask i : Nat) (hi : i < 8) :
    (PIN_TO_DIGITAL (port * 8 + i) ∈ readPortReads b port bitmask) ↔
      (IS_PIN_DIGITAL b (port * 8 + i) && bitmask.testBit i) = true := by
  have hmem : ∀ (c : Bool) (a x : Nat), (x ∈ if c then [a] else []) ↔ (c = true ∧ x = a) := by
    intro c a x
    cases c <;> simp
  simp only [readPortReads, PIN_TO_DIGITAL, List.mem_append, hmem]
  constructor
  · rintro (((((((⟨hc, he⟩ | ⟨hc, he⟩) | ⟨hc, he⟩) | ⟨hc, he⟩) | ⟨hc, he⟩) |
      ⟨hc, he⟩) | ⟨hc, he⟩) | ⟨hc, he⟩) <;>
    · have : i = 0 ∨ i = 1 ∨ i = 2 ∨ i = 3 ∨ i = 4 ∨ i = 5 ∨ i = 6 ∨ i = 7 := by omega
      rcases this with h | h | h | h | h | h | h | h <;> subst h <;> simp_all
  · intro hc
    have : i = 0 ∨ i = 1 ∨ i = 2 ∨ i = 3 ∨ i = 4 ∨ i = 5 ∨ i = 6 ∨ i = 7 := by omega
    rcases this with h | h | h | h | h | h | h | h <;> subst h <;> simp_all

/-- Witness for readPort_reads_iff: Mega, port 0, mask 0x04, bit 2. -/
theorem readPort_reads_iff_witness :
    (2 : Nat) < 8 ∧
    ((PIN_TO_DIGITAL (0 * 8 + 2) ∈ readPortReads Board.mega 0 0x04) ↔
      (IS_PIN_DIGITAL Board.mega (0 * 8 + 2) && (0x04 : Nat).testBit 2) = true) :=
  ⟨by decide, readPort_reads_iff Board.mega 0 0x04 2 (by decide)⟩

lemma bitsOf_testBit (f : Nat → Bool) (w i : Nat) :
    (bitsOf f w).testBit i = (decide (i < w) && f i) := by
  induction w with
  | zero => simp [bitsOf]
  | succ w ih =>
      simp only [bitsOf, Nat.testBit_or, ih]
      by_cases hiw : i = w
      · subst hiw
        cases hf : f i <;> simp [hf, Nat.testBit_two_pow]
      · have hwi : ¬ (w = i) := fun h => hiw h.symm
        by_cases hlt : i < w
        · have h2 : i < w + 1 := by omega
          cases hf : f w <;> simp [hf, hlt, h2, Nat.testBit_two_pow, hwi]
        · have h2 : ¬ (i < w + 1) := by omega
          cases hf : f w <;> simp [hf, hlt, h2, Nat.testBit_two_pow, hwi]

lemma bitsOf_congr (f g : Nat → Bool) (w : Nat)
    (h : ∀ j, j < w → f j = g j) : bitsOf f w = bitsOf g w := by
  induction w with
  | zero => rfl
  | succ w ih =>
      simp only [bitsOf]
      rw [ih (fun j hj => h j (by omega)), h w (by omega)]

lemma bnot8_testBit (x i : Nat) :
    (bnot8 x).testBit i = ((x.testBit i).xor (decide (i < 8))) := by
  have h : (0xFF : Nat) = 2 ^ 8 - 1 := by norm_num
  rw [bnot8, Nat.testBit_xor, h, Nat.testBit_two_pow_sub_one]

lemma testBit_byte_high (x n j : Nat) (hx : x < 2 ^ n) (hj : n ≤ j) :
    x.testBit j = false :=
  Nat.testBit_lt_two_pow
    (lt_of_lt_of_le hx (Nat.pow_le_pow_right (by norm_num) hj))

lemma testBit_0xFC (j : Nat) :
    (0xFC : Nat).testBit j = (decide (2 ≤ j) && decide (j < 8)) := by
  by_cases hj : j < 8
  · interval_cases j <;> decide
  · rw [testBit_byte_high 0xFC 8 j (by norm_num) (by omega)]
    simp
    omega
lemma testBit_0xFF (j : Nat) : (0xFF : Nat).testBit j = decide (j < 8) := by
  rw [show (0xFF : Nat) = 2 ^ 8 - 1 by norm_num, Nat.testBit_two_pow_sub_one]

lemma testBit_0x3F (j : Nat) : (0x3F : Nat).testBit j = decide (j < 6) := by
  rw [show (0x3F : Nat) = 2 ^ 6 - 1 by norm_num, Nat.testBit_two_pow_sub_one]

lemma testBit_0x0F (j : Nat) : (0x0F : Nat).testBit j = decide (j < 4) := by
  rw [show (0x0F : Nat) = 2 ^ 4 - 1 by norm_num, Nat.testBit_two_pow_sub_one]

lemma testBit_0xC0 (j : Nat) :
    (0xC0 : Nat).testBit j = (decide (6 ≤ j) && decide (j < 8)) := by
  by_cases hj : j < 8
  · interval_cases j <;> decide
  · rw [testBit_byte_high 0xC0 8 j (by norm_num) (by omega)]
    simp
    omega

lemma PORTDreg_testBit (s : State) (i : Nat) :
    (PORTDreg s).testBit i = (decide (i < 8) && s i) := by
  simp [PORTDreg, bitsOf_testBit]

lemma PORTBreg_testBit (s : State) (i : Nat) :
    (PORTBreg s).testBit i = (decide (i < 6) && s (8 + i)) := by
  simp [PORTBreg, bitsOf_testBit]

lemma PORTCreg_testBit (s : State) (i : Nat) :
    (PORTCreg s).testBit i = (decide (i < 6) && s (14 + i)) := by
  simp [PORTCreg, bitsOf_testBit]

lemma ite_or_form (old v m : Bool) :
    ((old && !m) || (v && m)) = (if m = true then v else old) := by
  cases m <;> simp

/-- Per-pin effect of the bit-by-bit loop after n iterations. -/
lemma writeLoop_apply (b : Board) (s : State) (port value bitmask n q : Nat) :
    writeLoop b s port value bitmask n q =
      if port * 8 ≤ q ∧ q < port * 8 + n ∧ bitmask.testBit (q - port * 8) = true ∧
          IS_PIN_DIGITAL b q = true
      then value.testBit (q - port * 8)
      else s q := by
  induction n with
  | zero =>
      rw [writeLoop, if_neg]
      rintro ⟨h1, h2, -, -⟩
      omega
  | succ n ih =>
      by_cases hq : q = port * 8 + n
      · subst hq
        have hsub : port * 8 + n - port * 8 = n := by omega
        simp only [writeLoop]
        by_cases hb : bitmask.testBit n = true
        · by_cases hd : IS_PIN_DIGITAL b (port * 8 + n) = true
          · rw [if_pos hb, if_pos hd]
            simp only [digitalWrite, PIN_TO_DIGITAL, if_pos rfl, hsub]
            have hcnd : port * 8 ≤ port * 8 + n ∧ port * 8 + n < port * 8 + (n + 1) ∧
                bitmask.testBit n = true ∧ IS_PIN_DIGITAL b (port * 8 + n) = true :=
              ⟨by omega, by omega, hb, hd⟩
            rw [if_pos hcnd]
            simp
          · have hA : ¬ (port * 8 ≤ port * 8 + n ∧ port * 8 + n < port * 8 + n ∧
                bitmask.testBit (port * 8 + n - port * 8) = true ∧
                IS_PIN_DIGITAL b (port * 8 + n) = true) := by
              rintro ⟨-, h, -, -⟩
              omega
            have hB : ¬ (port * 8 ≤ port * 8 + n ∧ port * 8 + n < port * 8 + (n + 1) ∧
                bitmask.testBit (port * 8 + n - port * 8) = true ∧
                IS_PIN_DIGITAL b (port * 8 + n) = true) := by
              rintro ⟨-, -, -, h4⟩
              exact hd h4
            rw [if_pos hb, if_neg hd, ih, if_neg hA, if_neg hB]
        · have hA : ¬ (port * 8 ≤ port * 8 + n ∧ port * 8 + n < port * 8 + n ∧
              bitmask.testBit (port * 8 + n - port * 8) = true ∧
              IS_PIN_DIGITAL b (port * 8 + n) = true) := by
            rintro ⟨-, h, -, -⟩
            omega
          have hB : ¬ (port * 8 ≤ port * 8 + n ∧ port * 8 + n < port * 8 + (n + 1) ∧
              bitmask.testBit (port * 8 + n - port * 8) = true ∧
              IS_PIN_DIGITAL b (port * 8 + n) = true) := by
            rintro ⟨-, -, h3, -⟩
            rw [hsub] at h3
            exact hb h3
          rw [if_neg hb, ih, if_neg hA, if_neg hB]
      · have hstep : writeLoop b s port value bitmask (n + 1) q =
            writeLoop b s port value bitmask n q := by
          simp only [writeLoop]
          split_ifs <;> simp [digitalWrite, PIN_TO_DIGITAL, hq]
        rw [hstep, ih]
        have hcond : (port * 8 ≤ q ∧ q < port * 8 + (n + 1) ∧
              bitmask.testBit (q - port * 8) = true ∧ IS_PIN_DIGITAL b q = true) ↔
            (port * 8 ≤ q ∧ q < port * 8 + n ∧
              bitmask.testBit (q - port * 8) = true ∧ IS_PIN_DIGITAL b q = true) := by
          constructor
          · rintro ⟨h1, h2, h3, h4⟩
            exact ⟨h1, by omega, h3, h4⟩
          · rintro ⟨h1, h2, h3, h4⟩
            exact ⟨h1, by omega, h3, h4⟩
        simp only [hcond]

/-- Per-pin effect of the full bit-by-bit writePort. -/
lemma writePortBitByBit_apply (b : Board) (s : State) (port value bitmask q : Nat) :
    writePortBitByBit b s port value bitmask q =
      if port * 8 ≤ q ∧ q < port * 8 + 8 ∧ bitmask.testBit (q - port * 8) = true ∧
          IS_PIN_DIGITAL b q = true
      then value.testBit (q - port * 8)
      else s q :=
  writeLoop_apply b s port value bitmask 8 q

/-- Per-pin effect of the register fast path: port 0 drives pins 2..7
(pin 2 included, digital or not), port 1 drives pins 8..15, port 2
drives pins 16..19, each from the corresponding bit of value when the
corresponding bit of bitmask is set; everything else is untouched. -/
lemma writePortFast_apply (s : State) (port value bitmask q : Nat) :
    writePortFast s port value bitmask q =
      if port = 0 ∧ 2 ≤ q ∧ q < 8 ∧ bitmask.testBit q = true then value.testBit q
      else if port = 1 ∧ 8 ≤ q ∧ q < 16 ∧ bitmask.testBit (q - 8) = true then
        value.testBit (q - 8)
      else if port = 2 ∧ 16 ≤ q ∧ q < 20 ∧ bitmask.testBit (q - 16) = true then
        value.testBit (q - 16)
      else s q := by
  have hC : ∀ x, PORTCreg (setPORTB s x) = PORTCreg s := fun x =>
    bitsOf_congr _ _ 6 fun j hj => by
      simp only [setPORTB]
      exact if_neg (by omega)
  by_cases hp0 : port = 0
  · subst hp0
    by_cases hq : q < 8
    · interval_cases q <;>
        simp [writePortFast, setPORTD, PORTDreg_testBit, bnot8_testBit,
          -Nat.testBit_zero,
          Nat.testBit_and, Nat.testBit_or, testBit_0xFF, testBit_0xFC, ite_or_form]
    · simp [writePortFast, setPORTD, hq, (show ¬(2 ≤ q ∧ q < 8 ∧ bitmask.testBit q = true) by
        rintro ⟨-, h, -⟩; omega)]
  · by_cases hp1 : port = 1
    · subst hp1
      by_cases hq : q < 20
      · interval_cases q <;>
          simp [writePortFast, setPORTB, setPORTC, hC, PORTBreg_testBit, PORTCreg_testBit,
            -Nat.testBit_zero,
            bnot8_testBit, Nat.testBit_and, Nat.testBit_or, Nat.testBit_shiftRight,
            testBit_0xFF, testBit_0x3F, testBit_0xC0, ite_or_form]
      · simp [writePortFast, setPORTB, setPORTC, hp0,
          (show ¬(14 ≤ q ∧ q < 20) by omega), (show ¬(8 ≤ q ∧ q < 14) by omega),
          (show ¬(q < 16) by omega)]
    · by_cases hp2 : port = 2
      · subst hp2
        by_cases hq : q < 20
        · interval_cases q <;>
            simp [writePortFast, setPORTC, PORTCreg_testBit, bnot8_testBit,
              -Nat.testBit_zero,
              Nat.testBit_and, Nat.testBit_or, Nat.testBit_shiftLeft,
              testBit_0xFF, testBit_0x0F, ite_or_form]
        · simp [writePortFast, setPORTC, hp0, hp1,
            (show ¬(14 ≤ q ∧ q < 20) by omega), (show ¬(q < 20) from hq)]
      · simp [writePortFast, hp0, hp1, hp2]

/-- On a masked pin that is digital on the ATmega168/328P profiles, the
fast path writes exactly the corresponding bit of value. -/
lemma writePortFast_digital_masked (s : State) (port value bitmask i : Nat)
    (hi : i < 8)
    (hd : (3 ≤ port * 8 + i ∧ port * 8 + i ≤ 8) ∨
      (14 ≤ port * 8 + i ∧ port * 8 + i ≤ 19))
    (hb : bitmask.testBit i = true) :
    writePortFast s port value bitmask (port * 8 + i) = value.testBit i := by
  have hport : port = 0 ∨ port = 1 ∨ port = 2 := by omega
  rcases hport with h | h | h <;> subst h
  · have h0 : 0 * 8 + i = i := by omega
    rw [h0] at hd ⊢
    rw [writePortFast_apply]
    have hcnd : (0 : Nat) = 0 ∧ 2 ≤ i ∧ i < 8 ∧ bitmask.testBit i = true :=
      ⟨rfl, by omega, hi, hb⟩
    rw [if_pos hcnd]
  · have h8 : 1 * 8 + i = 8 + i := by omega
    rw [h8] at hd ⊢
    rw [writePortFast_apply]
    have hn1 : ¬ ((1 : Nat) = 0 ∧ 2 ≤ 8 + i ∧ 8 + i < 8 ∧
        bitmask.testBit (8 + i) = true) := by
      rintro ⟨h, -, -, -⟩
      omega
    have hcnd : (1 : Nat) = 1 ∧ 8 ≤ 8 + i ∧ 8 + i < 16 ∧
        bitmask.testBit (8 + i - 8) = true :=
      ⟨rfl, by omega, by omega, by rw [show 8 + i - 8 = i by omega]; exact hb⟩
    rw [if_neg hn1, if_pos hcnd, show 8 + i - 8 = i by omega]
  · have h16 : 2 * 8 + i = 16 + i := by omega
    rw [h16] at hd ⊢
    rw [writePortFast_apply]
    have hn1 : ¬ ((2 : Nat) = 0 ∧ 2 ≤ 16 + i ∧ 16 + i < 8 ∧
        bitmask.testBit (16 + i) = true) := by
      rintro ⟨h, -, -, -⟩
      omega
    have hn2 : ¬ ((2 : Nat) = 1 ∧ 8 ≤ 16 + i ∧ 16 + i < 16 ∧
        bitmask.testBit (16 + i - 8) = true) := by
      rintro ⟨h, -, -, -⟩
      omega
    have hcnd : (2 : Nat) = 2 ∧ 16 ≤ 16 + i ∧ 16 + i < 20 ∧
        bitmask.testBit (16 + i - 16) = true :=
      ⟨rfl, by omega, by omega, by rw [show 16 + i - 16 = i by omega]; exact hb⟩
    rw [if_neg hn1, if_neg hn2, if_pos hcnd, show 16 + i - 16 = i by omega]

/-- On a masked digital pin, writePort writes exactly the corresponding
bit of value, on every board profile. -/
lemma writePort_digital_masked (b : Board) (s : State)
    (port value bitmask i : Nat) (hi : i < 8)
    (hd : IS_PIN_DIGITAL b (port * 8 + i) = true)
    (hb : bitmask.testBit i = true) :
    writePort b s port value bitmask (port * 8 + i) = value.testBit i := by
  cases b
  case duemilanove6 =>
    simp only [writePort]
    simp only [IS_PIN_DIGITAL, Bool.or_eq_true, Bool.and_eq_true,
      decide_eq_true_eq] at hd
    exact writePortFast_digital_masked s port value bitmask i hi hd hb
  case duemilanove8 =>
    simp only [writePort]
    simp only [IS_PIN_DIGITAL, Bool.or_eq_true, Bool.and_eq_true,
      decide_eq_true_eq] at hd
    exact writePortFast_digital_masked s port value bitmask i hi hd hb
  case mega =>
    simp only [writePort]
    rw [writePortBitByBit_apply]
    have hcnd : port * 8 ≤ port * 8 + i ∧ port * 8 + i < port * 8 + 8 ∧
        bitmask.testBit (port * 8 + i - port * 8) = true ∧
        IS_PIN_DIGITAL Board.mega (port * 8 + i) = true :=
      ⟨by omega, by omega, by rw [show port * 8 + i - port * 8 = i by omega]; exact hb, hd⟩
    rw [if_pos hcnd, show port * 8 + i - port * 8 = i by omega]

/-- C8: writing then reading back with the same mask returns exactly
value AND bitmask restricted to the digital-capable pins of the port
(bits of non-digital pins read back 0 whatever was written), and calling
writePort twice with identical arguments leaves the same pin states as
calling it once, on every board profile. -/
theorem writePort_readPort_roundtrip_idempotent (b : Board) (s : State)
    (port value bitmask : Nat) :
    readPort b (writePort b s port value bitmask) port bitmask =
      value &&& bitmask &&& digitalMask b port ∧
    writePort b (writePort b s port value bitmask) port value bitmask =
      writePort b s port value bitmask := by
  constructor
  · apply Nat.eq_of_testBit_eq
    intro i
    rw [readPort_testBit]
    simp only [Nat.testBit_and, digitalMask, bitsOf_testBit]
    by_cases hi : i < 8
    · have hdi : decide (i < 8) = true := by simp [hi]
      rw [hdi]
      by_cases hd : IS_PIN_DIGITAL b (port * 8 + i) = true
      · by_cases hb : bitmask.testBit i = true
        · simp [hd, hb, writePort_digital_masked b s port value bitmask i hi hd hb]
        · rw [Bool.not_eq_true] at hb
          simp [hb]
      · rw [Bool.not_eq_true] at hd
        simp [hd]
    · have hdi : decide (i < 8) = false := by simp [hi]
      rw [hdi]
      simp
  · funext q
    cases b
    case duemilanove6 | duemilanove8 =>
      simp only [writePort]
      rw [writePortFast_apply (writePortFast s port value bitmask) port value bitmask q,
        writePortFast_apply s port value bitmask q]
      split_ifs <;> rfl
    case mega =>
      simp only [writePort]
      rw [writePortBitByBit_apply Board.mega
          (writePortBitByBit Board.mega s port value bitmask) port value bitmask q,
        writePortBitByBit_apply Board.mega s port value bitmask q]
      split_ifs <;> rfl

/-- C1: failing input for the frame property.  On the ATmega328P profile
the fast path is compiled (ARDUINO_PINOUT_OPTIMIZE is defined, to 0, and
the preprocessor tests definedness), and it masks the caller bitmask on
port 0 only with 0xFC: writePort(0, 0x04, 0x04) from an all-LOW state
drives native pin 2 HIGH although IS_PIN_DIGITAL(2) is false — pin 2 is
reserved for the BTLE link.  The second conjunct records the part of the
claim that does hold: bitmask = 0 is a no-op on every profile. -/
theorem writePort_touches_nondigital_pin :
    (writePort Board.duemilanove8 (fun _ => false) 0 0x04 0x04 2 = true ∧
      IS_PIN_DIGITAL Board.duemilanove8 2 = false) ∧
    (∀ (b : Board) (s : State) (port value q : Nat),
      writePort b s port value 0 q = s q) := by
  refine ⟨⟨by decide, by decide⟩, ?_⟩
  intro b s port value q
  cases b <;>
    simp [writePort, writePortFast_apply, writePortBitByBit_apply, Nat.zero_testBit]

/-- C2: the register fast path is not observationally equivalent to the
bit-by-bit form: with port 0, value 0x04, bitmask 0x04, from an all-LOW
state, the fast path drives native pin 2 HIGH while the bit-by-bit form
leaves it LOW, because pin 2 is not digital-capable on this profile (it
belongs to the BTLE link, which the fast path fails to exclude). -/
theorem writePortFast_differs_from_bitByBit :
    writePortFast (fun _ => false) 0 0x04 0x04 2 = true ∧
    writePortBitByBit Board.duemilanove8 (fun _ => false) 0 0x04 0x04 2 = false ∧
    IS_PIN_DIGITAL Board.duemilanove8 2 = false := by
  exact ⟨by decide, by decide, by decide⟩

/-- C9: writePort is declared unsigned char but no execution path
contains a return statement, so no invocation yields a defined return
value. -/
theorem writePort_no_return_value (b : Board) (port value bitmask : Nat) :
    writePortReturn b port value bitmask = none := by
  cases b <;>
    first
      | rfl
      | (simp only [writePortReturn]; split_ifs <;> rfl)

end BLEPinIO
